import Mathlib

/-!
Shallow embedding of the filename decomposition / renaming engine of the
audio-plugin-manager repository, together with theorems settling the frozen
claims about it.

The embedded code comes from:
* `src/fileRenamer.ts` (`FileRenamer.parseFileName`,
  `FileRenamer.normalizePluginFileName`, `FileRenamer.normalizeImageName`),
* `src/scanner.ts` (`PluginScanner.getPluginBaseName`,
  `PluginScanner.processFile`, `PluginScanner.processAllFiles`),
* `src/services/pluginCategorizer.ts` (`PluginCategorizer.categorizeFiles`),
* `src/services/fileNameParser.ts` (`FileNameParser.getPluginBaseName`).

Strings are modelled through their character lists.  The JavaScript regular
expressions used by the source are embedded as dedicated matching functions
with the exact backtracking semantics of the concrete patterns (leftmost
match, lazy / greedy quantifiers as they occur in each pattern).  `\s` is
modelled by the ASCII whitespace characters, which covers every filename the
repository manipulates.  Node's `path.extname` / `path.basename` /
`path.dirname` (posix) are modelled including their dot-file edge cases.
-/

/-- ASCII model of the JavaScript regex class `\s`. -/
def isWsChar (c : Char) : Bool :=
  c == ' ' || c == '\t' || c == '\n' || c == '\r' || c == '\x0b' || c == '\x0c'

/-- Decimal digit test, the regex class `\d`. -/
def isDigitChar (c : Char) : Bool :=
  '0' ≤ c && c ≤ '9'

/-- Lowercasing of a character list; models JavaScript `toLowerCase` on ASCII. -/
def lowerList (l : List Char) : List Char :=
  l.map Char.toLower

/-- Lowercasing of a string; models JavaScript `toLowerCase` on ASCII. -/
def lowerStr (s : String) : String :=
  String.mk (lowerList s.data)

/-- Length of the leading whitespace run. -/
def wsCount (l : List Char) : Nat :=
  (l.takeWhile isWsChar).length

/-- Length of the leading digit run (the greedy `\d+`). -/
def digitCount (l : List Char) : Nat :=
  (l.takeWhile isDigitChar).length

/-- Case-insensitive prefix test: `pat` (given lowercase) leads `l`. -/
def leadsCI : List Char → List Char → Bool
  | [], _ => true
  | _ :: _, [] => false
  | p :: ps, c :: cs => (c.toLower == p) && leadsCI ps cs

/-- JavaScript `trim()` on a character list (ASCII whitespace). -/
def trimWsList (l : List Char) : List Char :=
  ((l.dropWhile isWsChar).reverse.dropWhile isWsChar).reverse

/-- Node `path.posix.basename` (no suffix argument) on a character list:
trailing slashes are ignored and the last path segment is returned. -/
def basenameList (l : List Char) : List Char :=
  ((l.reverse.dropWhile (fun c => c == '/')).takeWhile (fun c => c != '/')).reverse

/-- Node `path.posix.extname` applied to a path-free base name `b`: the
substring from the last dot on, except that a name with no dot, a name whose
only dot is leading (a dot-file), and the name `".."` have no extension. -/
def extOfBase (b : List Char) : List Char :=
  let pre := b.reverse.takeWhile (fun c => c != '.')
  if pre.length == b.length then []
  else
    let i := b.length - pre.length - 1
    if i == 0 || b == ['.', '.'] then [] else b.drop i

/-- Node `path.posix.basename` of a string. -/
def basenameOf (s : String) : String :=
  String.mk (basenameList s.data)

/-- Node `path.posix.extname` of a string. -/
def extnameOf (s : String) : String :=
  String.mk (extOfBase (basenameList s.data))

/-- Node `path.posix.dirname` on a character list. -/
def dirnameList (l : List Char) : List Char :=
  let r1 := ((l.drop 1).reverse).dropWhile (fun c => c == '/')
  let r2 := r1.dropWhile (fun c => c != '/')
  if r2.isEmpty then (if l.headD ' ' == '/' then ['/'] else ['.'])
  else if l.headD ' ' == '/' && r2.length == 1 then ['/', '/']
  else l.take r2.length

/-- Node `path.posix.dirname` of a string. -/
def dirnameOf (s : String) : String :=
  String.mk (dirnameList s.data)

/-- Node `path.posix.join` restricted to the dot-free, `..`-free paths the
engine builds (`path.join(dirPath, name)` in the source). -/
def joinPath (a b : String) : String :=
  if a = "" then (if b = "" then "." else b)
  else if b = "" then a
  else if a = "." then b
  else a ++ "/" ++ b

/-- Global replace of `[\s-]+` by a single space
(`baseName.replace(/[\s-]+/g, ' ')` in the source); the flag records whether
the previous character belonged to the current run. -/
def collapseGo : Bool → List Char → List Char
  | _, [] => []
  | inRun, c :: rest =>
      if isWsChar c || c == '-' then
        (if inRun then [] else [' ']) ++ collapseGo true rest
      else c :: collapseGo false rest

/-- Replace every run of whitespace / hyphens by one space. -/
def collapseWsHyphen (l : List Char) : List Char :=
  collapseGo false l

/-- Matcher for the separator part `(?:\s*[-_]\s*|\s+)` of the developer
regex `^([^-]+?)(?:\s*[-_]\s*|\s+)` of `parseFileName`: returns the length
consumed at the front of `l`, or `none`.  The first alternative wins when the
maximal whitespace run is followed by `-` or `_` (both `\s*` are greedy, and
they cannot trade characters with `[-_]`); otherwise `\s+` needs a nonempty
whitespace run. -/
def sepLen (l : List Char) : Option Nat :=
  let w1 := wsCount l
  match l.drop w1 with
  | c :: r =>
      if c == '-' || c == '_' then some (w1 + 1 + wsCount r)
      else if w1 == 0 then none else some w1
  | [] => if w1 == 0 then none else some w1

/-- Anchored lazy match of `^([^-]+?)(?:\s*[-_]\s*|\s+)`: the capture group
grows one non-`-` character at a time (lazy `+?`) and the separator is tried
after each character.  Returns the capture and the remainder after the whole
match (the source slices `baseName` by `developerMatch[0].length`). -/
def devMatchAux : List Char → List Char → Option (List Char × List Char)
  | _, [] => none
  | acc, c :: rest =>
      if c == '-' then none
      else
        match sepLen rest with
        | some s => some (acc ++ [c], rest.drop s)
        | none => devMatchAux (acc ++ [c]) rest

/-- Match of the developer regex of `parseFileName` against a base name. -/
def devMatch (l : List Char) : Option (List Char × List Char) :=
  devMatchAux [] l

/-- Token part of `PLATFORM_PATTERN`
`(?:x64|x86|win(?:dows)?(?:64)?|mac|osx|linux)` (case-insensitive):
alternatives are tried left to right, the optional groups of the `win` branch
are greedy, and the matched length is returned. -/
def platformTok (l : List Char) : Option Nat :=
  if leadsCI (['x', '6', '4']) l then some 3
  else if leadsCI (['x', '8', '6']) l then some 3
  else if leadsCI (['w', 'i', 'n']) l then
    (let l3 := l.drop 3
     if leadsCI (['d', 'o', 'w', 's']) l3 then
       (if leadsCI (['6', '4']) (l3.drop 4) then some 9 else some 7)
     else if leadsCI (['6', '4']) l3 then some 5 else some 3)
  else if leadsCI (['m', 'a', 'c']) l then some 3
  else if leadsCI (['o', 's', 'x']) l then some 3
  else if leadsCI (['l', 'i', 'n', 'u', 'x']) l then some 5
  else none

/-- Numeric part `(?:\d+\.\d+\.\d+|\d+\.\d+|\d+)` of the version pattern:
three-component, then two-component, then one-component form, each `\d+`
being a maximal digit run (it cannot trade digits with the literal dots). -/
def numTail (l : List Char) : Option Nat :=
  let d1 := digitCount l
  if d1 == 0 then none
  else
    match l.drop d1 with
    | '.' :: r1 =>
        let d2 := digitCount r1
        if d2 == 0 then some d1
        else
          (match r1.drop d2 with
           | '.' :: r2 =>
               let d3 := digitCount r2
               if d3 == 0 then some (d1 + 1 + d2) else some (d1 + 1 + d2 + 1 + d3)
           | _ => some (d1 + 1 + d2))
    | _ => some d1

/-- Token part `(?:v?(?:\d+\.\d+\.\d+|\d+\.\d+|\d+))` of the version regex of
`parseFileName` (case-insensitive, so `v` or `V`; if the digits fail after a
consumed `v`, backtracking to the empty `v?` also fails since `v` is not a
digit). -/
def versionTok (l : List Char) : Option Nat :=
  match l with
  | [] => none
  | c :: r =>
      if c == 'v' || c == 'V' then (numTail r).map (· + 1) else numTail l

/-- Token part `(?:installer|setup|full)` of `SUFFIX_PATTERN`
(case-insensitive, alternatives left to right). -/
def suffixTok (l : List Char) : Option Nat :=
  if leadsCI (['i', 'n', 's', 't', 'a', 'l', 'l', 'e', 'r']) l then some 9
  else if leadsCI (['s', 'e', 't', 'u', 'p']) l then some 5
  else if leadsCI (['f', 'u', 'l', 'l']) l then some 4
  else none

/-- Leftmost match of `\s+<tok>(?:\s*|$)` (the common shape of the platform,
version and suffix regexes): the scan advances one character at a time like a
JavaScript regex engine; at a whitespace character the greedy `\s+` takes the
maximal run (the token never starts with whitespace, so backtracking inside
the run cannot succeed), `tok` is tried right after it, and the greedy
trailing `\s*` takes the following run.  Returns
`(text before the match, matched token text, text after the match)`. -/
def findTokSplit (tok : List Char → Option Nat) : List Char → Option (List Char × List Char × List Char)
  | [] => none
  | c :: rest =>
      if isWsChar c then
        (let w := wsCount (c :: rest)
         let afterWs := (c :: rest).drop w
         match tok afterWs with
         | some tl =>
             some ([], afterWs.take tl, (afterWs.drop tl).drop (wsCount (afterWs.drop tl)))
         | none =>
             match findTokSplit tok rest with
             | some (pre, t, post) => some (c :: pre, t, post)
             | none => none)
      else
        match findTokSplit tok rest with
        | some (pre, t, post) => some (c :: pre, t, post)
        | none => none

/-- One `match` / `replace` step of `parseFileName`: the extracted field is
`match[0].trim()` (which is exactly the token text, the token containing no
whitespace) and the first match is replaced by one space
(`baseName.replace(regex, ' ')`). -/
def stripFirstTok (tok : List Char → Option Nat) (l : List Char) : Option (List Char) × List Char :=
  match findTokSplit tok l with
  | some (pre, t, post) => (some t, pre ++ ' ' :: post)
  | none => (none, l)

/-- Result record of `FileRenamer.parseFileName` (interface `ParsedFileName`
of `src/types.ts`). -/
structure ParsedFileName where
  developer : String
  pluginName : String
  platform : String
  version : String
  suffix : String
  extension : String
deriving DecidableEq, Repr

/-- Working base name of `parseFileName`:
`path.basename(fileName, path.extname(fileName))`. -/
def parseBase (fileName : String) : List Char :=
  let b := basenameList fileName.data
  b.take (b.length - (extOfBase b).length)

/-- Developer extraction step of `parseFileName`: on a match the trimmed
capture becomes the developer and the base name is sliced past the match;
otherwise the developer stays empty and the base name is unchanged. -/
def devStep (l : List Char) : List Char × List Char :=
  match devMatch l with
  | some gr => (trimWsList gr.1, gr.2)
  | none => ([], l)

/-- Embedding of `FileRenamer.parseFileName` of `src/fileRenamer.ts` (lines 16-73):
extension via `path.extname`, base via `path.basename(fileName, ext)`, then
the developer, platform, version and suffix patterns are matched and stripped
in that order, and the remainder with whitespace/hyphen runs collapsed and
trimmed becomes the plugin name.  The extension field is lowercased. -/
def parseFileName (fileName : String) : ParsedFileName :=
  let d := devStep (parseBase fileName)
  let platStep := stripFirstTok platformTok d.2
  let verStep := stripFirstTok versionTok platStep.2
  let sufStep := stripFirstTok suffixTok verStep.2
  { developer := String.mk d.1
    pluginName := String.mk (trimWsList (collapseWsHyphen sufStep.2))
    platform := String.mk ((platStep.1).getD [])
    version := String.mk ((verStep.1).getD [])
    suffix := String.mk ((sufStep.1).getD [])
    extension := lowerStr (extnameOf fileName) }

/-- Embedding of `FileRenamer.normalizePluginFileName` of `src/fileRenamer.ts` (lines
75-83): `"<basename(developerFolder)> - <pluginName>"`, then a
space-separated platform segment if the platform is non-empty, then a
space-separated version segment if the version is non-empty, then the
lowercased extension. -/
def normalizePluginFileName (parsedName : ParsedFileName) (developerFolder : String) : String :=
  let developer := basenameOf developerFolder
  let f1 := developer ++ " - " ++ parsedName.pluginName
  let f2 := if parsedName.platform ≠ "" then f1 ++ " " ++ parsedName.platform else f1
  let f3 := if parsedName.version ≠ "" then f2 ++ " " ++ parsedName.version else f2
  f3 ++ lowerStr parsedName.extension

/-- Match-and-strip of the prefix regex
`new RegExp("^" + developerName + "\\s*[-_]\\s*", "i")` used by
`getPluginBaseName` (with `developerName` containing no regex
metacharacters, as in the repository's developer folder names): if the input
starts with `developerName` (case-insensitively) followed by optional
whitespace, a `-` or `_`, and optional whitespace, that prefix is removed. -/
def stripDevLead (developerName : List Char) (l : List Char) : List Char :=
  if leadsCI (lowerList developerName) l then
    (let r1 := l.drop developerName.length
     let w1 := wsCount r1
     match r1.drop w1 with
     | c :: r2 => if c == '-' || c == '_' then r2.drop (wsCount r2) else l
     | [] => l)
  else l

/-- Tail `(\.\d+)*$` of the `v\d+(\.\d+)*` alternative as a three-state
machine over the remaining characters (state 0: at a group boundary, state 1:
a first digit is required, state 2: inside a digit run); it accepts exactly
the suffixes made of repeated dot-plus-nonempty-digit-run groups, consuming
the whole remaining text. -/
def vTailSM : Nat → List Char → Bool
  | 0, [] => true
  | 0, c :: r => c == '.' && vTailSM 1 r
  | 1, c :: r => isDigitChar c && vTailSM 2 r
  | 2, [] => true
  | 2, c :: r =>
      if isDigitChar c then vTailSM 2 r else (c == '.' && vTailSM 1 r)
  | _, _ => false

/-- Exact (to the end of `l`) match of the alternative `v\d+(\.\d+)*` of the
trailing-strip regex of `getPluginBaseName` (case-insensitive). -/
def isVNum (l : List Char) : Bool :=
  match l with
  | c :: r =>
      (c == 'v' || c == 'V') &&
      (let d1 := digitCount r
       d1 != 0 && vTailSM 0 (r.drop d1))
  | [] => false

/-- Exact match of one alternative `(v\d+(\.\d+)*|PC|Windows|x64|Setup)` of
the trailing-strip regex (case-insensitive, anchored at the end). -/
def versionAltEnd (l : List Char) : Bool :=
  isVNum l || lowerList l == (['p', 'c']) ||
    lowerList l == (['w', 'i', 'n', 'd', 'o', 'w', 's']) ||
    lowerList l == (['x', '6', '4']) ||
    lowerList l == (['s', 'e', 't', 'u', 'p'])

/-- Leftmost start of a match of `/\s*(v\d+(\.\d+)*|PC|Windows|x64|Setup)$/i`:
at each position the greedy `\s*` takes the whitespace run (no alternative
starts with whitespace) and one alternative must reach the end exactly. -/
def trailScan : Nat → List Char → Option Nat
  | pos, [] => if versionAltEnd ([]) then some pos else none
  | pos, c :: r =>
      if versionAltEnd ((c :: r).dropWhile isWsChar) then some pos
      else trailScan (pos + 1) r

/-- Replace of the trailing version/platform/setup pattern by the empty
string (`baseName.replace(/\s*(v\d+(\.\d+)*|PC|Windows|x64|Setup)$/i, '')`). -/
def stripTrailing (l : List Char) : List Char :=
  match trailScan 0 l with
  | some p => l.take p
  | none => l

/-- Embedding of `PluginScanner.getPluginBaseName` of `src/scanner.ts` (lines 78-92),
identical to `FileNameParser.getPluginBaseName` of
`src/services/fileNameParser.ts` (lines 20-34): drop the extension, collapse
whitespace/hyphen runs and trim, strip a leading
`<developerName>\s*[-_]\s*` prefix when a developer name is given, then strip
a trailing version/platform/setup token. -/
def getPluginBaseName (fileName : String) (developerName : String) : String :=
  let b := basenameList fileName.data
  let ext := extOfBase b
  let base0 := b.take (b.length - ext.length)
  let b1 := trimWsList (collapseWsHyphen base0)
  let b2 := if developerName ≠ "" then stripDevLead developerName.data b1 else b1
  String.mk (stripTrailing b2)

/-- Constant `DOCUMENTATION_EXTENSIONS` of `src/services/pluginCategorizer.ts`. -/
def documentationExtensions : List String := [".md", ".pdf", ".txt"]

/-- Constant `IMAGE_EXTENSIONS` of `src/services/pluginCategorizer.ts`. -/
def imageExtensions : List String := [".png", ".jpg", ".jpeg", ".gif", ".webp"]

/-- Constant `INSTALLER_EXTENSIONS` of `src/services/pluginCategorizer.ts`. -/
def installerExtensions : List String := [".zip", ".exe", ".msi"]

/-- Key `path.extname(file).toLowerCase()` every categorization test
uses. -/
def extLower (f : String) : String :=
  String.mk (lowerList (extOfBase (basenameList f.data)))

/-- Result record of `PluginCategorizer.categorizeFiles` (interface
`PluginFiles` of `src/types.ts`; `zipFile` and `executableFile` are optional
there). -/
structure PluginFiles where
  zipFile : Option String
  executableFile : Option String
  documentationFiles : List String
  imageFiles : List String
  otherFiles : List String
deriving DecidableEq, Repr

/-- Installer-class test `INSTALLER_EXTENSIONS.includes(ext)`. -/
def isInstallerFile (f : String) : Bool :=
  installerExtensions.contains (extLower f)

/-- Test `ext === '.zip'`. -/
def isZipFile (f : String) : Bool :=
  extLower f == (".zip")

/-- Test `ext === '.exe' || ext === '.msi'`. -/
def isExeMsiFile (f : String) : Bool :=
  extLower f == (".exe") || extLower f == (".msi")

/-- First pass of `categorizeFiles` (lines 31-38): iterate over the
installer-class files, assigning `result.zipFile` on `.zip` and
`result.executableFile` on `.exe`/`.msi`; a later file of the same class
overwrites an earlier one. -/
def setInstallers : List String → Option String → Option String → Option String × Option String
  | [], z, e => (z, e)
  | f :: rest, z, e =>
      if isZipFile f then setInstallers rest (some f) e
      else if isExeMsiFile f then setInstallers rest z (some f)
      else setInstallers rest z e

/-- Second pass of `categorizeFiles` (lines 41-52): files already in
`pluginFiles` are skipped, the rest go to documentation, images or others by
extension, in input order. -/
def classifyRest (pluginFiles : List String) : List String → List String × List String × List String
  | [] => ([], [], [])
  | f :: rest =>
      let dio := classifyRest pluginFiles rest
      if pluginFiles.contains f then dio
      else if documentationExtensions.contains (extLower f) then (f :: dio.1, dio.2.1, dio.2.2)
      else if imageExtensions.contains (extLower f) then (dio.1, f :: dio.2.1, dio.2.2)
      else (dio.1, dio.2.1, f :: dio.2.2)

/-- Embedding of `PluginCategorizer.categorizeFiles` of `src/services/pluginCategorizer.ts`
(lines 20-55). -/
def categorizeFiles (files : List String) : PluginFiles :=
  let pluginFiles := files.filter isInstallerFile
  let ze := setInstallers pluginFiles none none
  let dio := classifyRest pluginFiles files
  { zipFile := ze.1
    executableFile := ze.2
    documentationFiles := dio.1
    imageFiles := dio.2.1
    otherFiles := dio.2.2 }

/-- Concatenation of the five slots of a `PluginFiles` record, used to state
the partition property. -/
def slotsList (r : PluginFiles) : List String :=
  r.zipFile.toList ++ r.executableFile.toList ++ r.documentationFiles ++ r.imageFiles ++ r.otherFiles

/-- Character class `[a-zA-Z0-9]`. -/
def isAlphaNumChar (c : Char) : Bool :=
  ('a' ≤ c && c ≤ 'z') || ('A' ≤ c && c ≤ 'Z') || ('0' ≤ c && c ≤ '9')

/-- Global replace of `\s+` by a single underscore. -/
def underscoreGo : Bool → List Char → List Char
  | _, [] => []
  | inRun, c :: rest =>
      if isWsChar c then
        (if inRun then [] else ['_']) ++ underscoreGo true rest
      else c :: underscoreGo false rest

/-- Replace every whitespace run by one underscore
(`.replace(/\s+/g, '_')`). -/
def underscoreRuns (l : List Char) : List Char :=
  underscoreGo false l

/-- Cleaned plugin name of `normalizeImageName`:
`pluginName.replace(/[^a-zA-Z0-9\s]/g, '').trim().replace(/\s+/g, '_')`. -/
def cleanForImage (pluginName : String) : String :=
  String.mk (underscoreRuns (trimWsList (pluginName.data.filter
    (fun c => isAlphaNumChar c || isWsChar c))))

/-- Suffix test on character lists (string `endsWith`). -/
def endsWithList (l suf : List Char) : Bool :=
  suf.reverse.isPrefixOf l.reverse

/-- Node `path.basename(fileName, ext)`: the basename, with a final `ext`
removed when the basename ends with it and is not equal to it. -/
def basenameDropSuffix (fileName ext : String) : List Char :=
  let b := basenameList fileName.data
  if ext ≠ "" && endsWithList b ext.data && b ≠ ext.data then
    b.take (b.length - ext.data.length)
  else b

/-- Current base name computation of `normalizeImageName`:
`path.basename(fileName, ext).replace(/[^a-zA-Z0-9\s_-]/g, '').trim()
.replace(/\s+/g, '_').toLowerCase()` with `ext` already lowercased. -/
def cleanCurrentBase (fileName ext : String) : String :=
  String.mk (lowerList (underscoreRuns (trimWsList ((basenameDropSuffix fileName ext).filter
    (fun c => isAlphaNumChar c || isWsChar c || c == '_' || c == '-')))))

/-- Decimal digit character of a value below ten. -/
def dChar (d : Nat) : Char :=
  Char.ofNat (48 + d)

/-- Fuel-driven digit expansion; the fuel bounds the number of digits, and
`natDigs` always supplies enough. -/
def natDigsGo : Nat → Nat → List Char
  | 0, _ => []
  | fuel + 1, n => if n < 10 then [dChar n] else natDigsGo fuel (n / 10) ++ [dChar (n % 10)]

/-- Decimal digit list of a natural number (most significant first), the
semantics of the JavaScript template `${counter}`. -/
def natDigs (n : Nat) : List Char :=
  natDigsGo (n + 1) n

/-- Decimal rendering of a natural number. -/
def natDec (n : Nat) : String :=
  String.mk (natDigs n)

/-- Candidate file names probed by the collision loop of
`normalizeImageName`: first `cleanPluginName + ext`, then
`cleanPluginName-1 + ext`, `cleanPluginName-2 + ext`, ... -/
def imageCand (cleanName ext : String) : Nat → String
  | 0 => cleanName ++ ext
  | k + 1 => cleanName ++ "-" ++ natDec (k + 1) ++ ext

/-- The `while (fs.existsSync(finalPath))` loop of `normalizeImageName`,
with the existing file set modelled by the list `existing` of paths; the
fuel given by the caller (`existing.length + 1`) always suffices to reach a
free candidate, which mirrors the loop's termination on a finite
filesystem. -/
def imageLoop (existing : List String) (dirPath cleanName ext : String) : Nat → Nat → String
  | 0, j => imageCand cleanName ext j
  | fuel + 1, j =>
      if joinPath dirPath (imageCand cleanName ext j) ∈ existing then
        imageLoop existing dirPath cleanName ext fuel (j + 1)
      else imageCand cleanName ext j

/-- Lowercased extension used by `normalizeImageName`
(`path.extname(fileName).toLowerCase()`). -/
def imageExt (fileName : String) : String :=
  lowerStr (extnameOf fileName)

/-- Embedding of `FileRenamer.normalizeImageName` of `src/fileRenamer.ts` (lines 85-121),
identical to the copies in `src/scanner.ts` and
`src/services/fileNameParser.ts`; `fs.existsSync` is modelled by membership
in `existing`. -/
def normalizeImageName (existing : List String) (fileName pluginName : String) : String :=
  let cleanPluginName := cleanForImage pluginName
  let currentBaseName := cleanCurrentBase fileName (imageExt fileName)
  if currentBaseName = lowerStr cleanPluginName then fileName
  else imageLoop existing (dirnameOf fileName) cleanPluginName (imageExt fileName)
    (existing.length + 1) 0

/-- Rename step of `PluginScanner.processFile` of `src/scanner.ts` (lines
171-196) in the case where the directory is writable: the new name is
computed from the parse, nothing happens when the name is already correct,
and otherwise `fs.promises.rename(filePath, newPath)` is issued with no
existence check on `newPath`.  The filesystem is modelled by the list of
existing paths: the rename removes the source path and makes the target path
exist (a pre-existing distinct file at the target is silently replaced). -/
def processFileRename (existing : List String) (filePath developerPath : String) : String × List String :=
  let currentFileName := basenameOf filePath
  let parsedName := parseFileName currentFileName
  let newFileName := normalizePluginFileName parsedName developerPath
  if currentFileName = newFileName then (filePath, existing)
  else
    let newPath := joinPath developerPath newFileName
    (newPath, newPath :: existing.erase filePath)

/-- Outcome of `PluginScanner.processFile` (lines 171-196) as a function of
directory writability: an unchanged name is returned as-is with no access
check; otherwise `fs.promises.access(developerPath, W_OK)` fails with
`EACCES` on a non-writable directory and the catch block turns it into the
distinct error `"No write permission in directory: <developerPath>"`
(a rejected promise); on a writable directory the rename target is
returned. -/
def processFileModel (writable : Bool) (filePath developerPath : String) : Except String String :=
  let currentFileName := basenameOf filePath
  let newFileName := normalizePluginFileName (parseFileName currentFileName) developerPath
  if currentFileName = newFileName then .ok filePath
  else if writable then .ok (joinPath developerPath newFileName)
  else .error ("No write permission in directory: " ++ developerPath)

/-- Embedding of `PluginScanner.processAllFiles` of `src/scanner.ts` (lines 382-398):
`Promise.allSettled` over the per-file operations, keeping the fulfilled
values in order and dropping (only logging) the rejected ones. -/
def processAllFilesModel (writable : Bool) (pluginFiles : List String) (developerPath : String) : List String :=
  match pluginFiles with
  | [] => []
  | f :: rest =>
      match processFileModel writable f developerPath with
      | .ok p => p :: processAllFilesModel writable rest developerPath
      | .error _ => processAllFilesModel writable rest developerPath

/-- Per-developer-folder batches of the scan loop of
`scanAndProcessPlugins`: each folder (with its writability and its file
batch) is processed by `processAllFiles`, which never rejects, so every
folder is reached. -/
def scanFoldersModel (folders : List (String × Bool × List String)) : List (String × List String) :=
  folders.map fun dwf => (dwf.1, processAllFilesModel dwf.2.1 dwf.2.2 dwf.1)

/-! ## Claim C1 (Scenario A) -/

/-- C1 counterexample: on `"FabFilter_ProQ3_v3.21_x64_Setup.exe"` the parser
does not produce the claimed record (the platform, version and suffix
patterns require a whitespace before the token, which an underscore is not),
and the normalized name is not `"FabFilter - ProQ3 x64 3.21.exe"`. -/
theorem scenarioA_claim_false :
    (parseFileName ("FabFilter_ProQ3_v3.21_x64_Setup.exe")).platform ≠ "x64" ∧
    (parseFileName ("FabFilter_ProQ3_v3.21_x64_Setup.exe")).version ≠ "3.21" ∧
    (parseFileName ("FabFilter_ProQ3_v3.21_x64_Setup.exe")).pluginName ≠ "ProQ3" ∧
    normalizePluginFileName (parseFileName ("FabFilter_ProQ3_v3.21_x64_Setup.exe")) ("FabFilter")
      ≠ "FabFilter - ProQ3 x64 3.21.exe" := by
  decide

/-- C1 amended: for the input filename `"FabFilter_ProQ3_v3.21_x64_Setup.exe"`
in developer folder `"FabFilter"`, `parseFileName` returns
`{developer:"FabFilter", pluginName:"ProQ3_v3.21_x64_Setup", platform:"",
version:"", suffix:"", extension:".exe"}` (only the developer separator
accepts `_`; platform, version and suffix need a preceding whitespace), and
normalizing that parse with the folder yields
`"FabFilter - ProQ3_v3.21_x64_Setup.exe"`. -/
theorem scenarioA_actual_parse_and_normalize :
    parseFileName ("FabFilter_ProQ3_v3.21_x64_Setup.exe") =
      { developer := "FabFilter", pluginName := "ProQ3_v3.21_x64_Setup",
        platform := "", version := "", suffix := "", extension := ".exe" } ∧
    normalizePluginFileName (parseFileName ("FabFilter_ProQ3_v3.21_x64_Setup.exe")) ("FabFilter")
      = "FabFilter - ProQ3_v3.21_x64_Setup.exe" := by
  constructor
  · rfl
  · rfl

/-! ## Claim C4 (Scenario B) -/

/-- C4 counterexample: in developer folder `"Waves"` the two filenames of
Scenario B do not receive the same derived base name, and neither base name
is `"SSLChannel"`: the whitespace/hyphen collapse runs before the developer
prefix strip, so `"Waves - SSLChannel v1.0"` becomes `"Waves SSLChannel v1.0"`
whose prefix no longer matches `^Waves\s*[-_]\s*`. -/
theorem scenarioB_claim_false :
    getPluginBaseName ("Waves - SSLChannel v1.0.vst3") ("Waves") ≠
      getPluginBaseName ("Waves_SSLChannel_v1.0_screenshot.png") ("Waves") ∧
    getPluginBaseName ("Waves - SSLChannel v1.0.vst3") ("Waves") ≠ "SSLChannel" := by
  decide

/-- C4 amended: in developer folder `"Waves"`,
`"Waves - SSLChannel v1.0.vst3"` derives base name `"Waves SSLChannel"`
(prefix not stripped, trailing `v1.0` stripped) while
`"Waves_SSLChannel_v1.0_screenshot.png"` derives
`"SSLChannel_v1.0_screenshot"` (underscore prefix stripped, no trailing
token), so the two files fall into two different plugin units. -/
theorem scenarioB_actual_base_names :
    getPluginBaseName ("Waves - SSLChannel v1.0.vst3") ("Waves") = "Waves SSLChannel" ∧
    getPluginBaseName ("Waves_SSLChannel_v1.0_screenshot.png") ("Waves")
      = "SSLChannel_v1.0_screenshot" := by
  constructor
  · rfl
  · rfl

/-! ## Claim C2 (categorization partition) -/

/-- C2 counterexample: with two `.zip` inputs the first one is dropped from
every slot (the first pass keeps only the last `.zip` and the second pass
skips every installer-class file), so the five slots are not a partition of
the input. -/
theorem categorize_partition_false_two_zips :
    ("a.zip" : String) ∈ (["a.zip", "b.zip"] : List String) ∧
    ("a.zip" : String) ∉ slotsList (categorizeFiles (["a.zip", "b.zip"])) := by
  decide

/-! ## Claim C8 (first-wins for installer slots) -/

/-- C8 counterexample: with input order `["a.zip", "b.zip"]` the `zipFile`
slot holds `"b.zip"`, not the first `.zip` of the input. -/
theorem installer_slot_not_first :
    (categorizeFiles (["a.zip", "b.zip"])).zipFile ≠ some ("a.zip") ∧
    (categorizeFiles (["a.zip", "b.zip"])).zipFile = some ("b.zip") := by
  decide

/-! ## Claim C3 (collision safety) -/

/-- C3 counterexample: `processFile` renames onto its computed target without
any existence check, so when the desired target path already exists and is a
different file than the source it is overwritten: here the rename of
`"/D/P.exe"` targets `"/D/D - P.exe"`, a distinct path existing before the
call, with no disambiguating suffix appended. -/
theorem process_file_overwrites_existing_target :
    (processFileRename (["/D/D - P.exe", "/D/P.exe"]) ("/D/P.exe") ("/D")).1
        = "/D/D - P.exe" ∧
    ("/D/D - P.exe" : String) ∈ (["/D/D - P.exe", "/D/P.exe"] : List String) ∧
    ("/D/D - P.exe" : String) ≠ "/D/P.exe" := by
  decide

/-! ## Claims C5 / C6 counterexamples (idempotence / round-trip) -/

/-- C5 counterexample: the canonical name produced by the normalizer for the
parsed value `{pluginName:"P", extension:".exe"}` and developer folder
`"A_B"` is `"A_B - P.exe"`, but normalizing its parse with the same folder
yields `"A_B - B P.exe"` (the developer regex only captures up to the first
separator, here the `_`). -/
theorem canonical_reparse_not_identity :
    normalizePluginFileName
        (parseFileName (normalizePluginFileName
          { developer := "", pluginName := "P", platform := "",
            version := "", suffix := "", extension := ".exe" } ("A_B"))) ("A_B")
      ≠ normalizePluginFileName
          { developer := "", pluginName := "P", platform := "",
            version := "", suffix := "", extension := ".exe" } ("A_B") := by
  decide

/-- C6 counterexample: for input `"P.exe"` and developer folder `"A_B"` the
first application of normalize-of-parse gives `"A_B - P.exe"` and the second
gives `"A_B - B P.exe"`, so one application is not a fixed point. -/
theorem normalize_parse_not_fixed_point :
    normalizePluginFileName
        (parseFileName (normalizePluginFileName (parseFileName ("P.exe")) ("A_B"))) ("A_B")
      ≠ normalizePluginFileName (parseFileName ("P.exe")) ("A_B") := by
  decide

/-! ## Generic string lemmas -/

/-- String equality is equality of the underlying character lists. -/
theorem str_eq_iff_data {s t : String} : s = t ↔ s.data = t.data := by
  constructor
  · exact fun h => congrArg String.data h
  · intro h
    cases s
    cases t
    exact congrArg String.mk h

/-- Appending strings appends their character lists. -/
theorem str_data_append (a b : String) : (a ++ b).data = a.data ++ b.data := rfl

/-! ## Claim C7 (shape of the normalized name) -/

/-- C7: for every parsed value and developer folder, the normalized name is
the folder's basename, `" - "`, the plugin name, a space-prefixed platform
segment only when the platform is non-empty, then a space-prefixed version
segment only when the version is non-empty (platform before version), then
the lowercased extension — which is the extension itself whenever it is
already lowercase, as the parser guarantees; the developer and suffix fields
of the parsed value have no influence on the output. -/
theorem normalize_shape_and_field_independence (p : ParsedFileName) (d : String) :
    normalizePluginFileName p d =
      basenameOf d ++ " - " ++ p.pluginName ++
        (if p.platform = "" then "" else " " ++ p.platform) ++
        (if p.version = "" then "" else " " ++ p.version) ++ lowerStr p.extension ∧
    (lowerStr p.extension = p.extension →
      normalizePluginFileName p d =
        basenameOf d ++ " - " ++ p.pluginName ++
          (if p.platform = "" then "" else " " ++ p.platform) ++
          (if p.version = "" then "" else " " ++ p.version) ++ p.extension) ∧
    (∀ dev suf : String,
      normalizePluginFileName
        { developer := dev, pluginName := p.pluginName, platform := p.platform,
          version := p.version, suffix := suf, extension := p.extension } d
        = normalizePluginFileName p d) := by
  refine ⟨?_, ?_, ?_⟩
  · unfold normalizePluginFileName
    by_cases hp : p.platform = "" <;> by_cases hv : p.version = "" <;>
      simp only [hp, hv, ne_eq, not_true_eq_false, not_false_eq_true, if_true, if_false,
        ite_true, ite_false, if_neg, if_pos] <;>
      (rw [str_eq_iff_data]; simp [str_data_append])
  · intro hext
    unfold normalizePluginFileName
    rw [hext]
    by_cases hp : p.platform = "" <;> by_cases hv : p.version = "" <;>
      simp only [hp, hv, ne_eq, not_true_eq_false, not_false_eq_true, if_true, if_false,
        ite_true, ite_false, if_neg, if_pos] <;>
      (rw [str_eq_iff_data]; simp [str_data_append])
  · intro dev suf
    rfl

/-- Witness for C7 at a concrete parsed value. -/
theorem normalize_shape_witness :
    lowerStr (".exe") = ".exe" ∧
    normalizePluginFileName
        { developer := "X", pluginName := "P", platform := "x64",
          version := "v1.0", suffix := "Setup", extension := ".exe" } ("D")
      = basenameOf ("D") ++ " - " ++ "P" ++ (" " ++ "x64") ++ (" " ++ "v1.0") ++ ".exe" := by
  constructor
  · decide
  · have h := normalize_shape_and_field_independence
      { developer := "X", pluginName := "P", platform := "x64",
        version := "v1.0", suffix := "Setup", extension := ".exe" } ("D")
    have h2 := h.2.1 (by decide)
    simpa using h2

/-! ## Claim C9 (parser totality and empty-field defaults) -/

/-- A failed token search extracts nothing. -/
theorem stripFirstTok_fst_none (tok : List Char → Option Nat) (l : List Char)
    (h : findTokSplit tok l = none) : (stripFirstTok tok l).1 = none := by
  simp [stripFirstTok, h]

/-- C9: `parseFileName` is a total function on strings (the embedding returns
a `ParsedFileName` for every input, mirroring that the source never throws);
its extension field is always the lowercased `path.extname` of the input, and
every field whose pattern finds no match in the working base name is the
empty string. -/
theorem parse_total_unmatched_fields_empty (s : String) :
    (parseFileName s).extension = lowerStr (extnameOf s) ∧
    (devMatch (parseBase s) = none → (parseFileName s).developer = "") ∧
    (findTokSplit platformTok (devStep (parseBase s)).2 = none →
      (parseFileName s).platform = "") ∧
    (findTokSplit versionTok (stripFirstTok platformTok (devStep (parseBase s)).2).2 = none →
      (parseFileName s).version = "") ∧
    (findTokSplit suffixTok
        (stripFirstTok versionTok (stripFirstTok platformTok (devStep (parseBase s)).2).2).2 = none →
      (parseFileName s).suffix = "") := by
  refine ⟨rfl, ?_, ?_, ?_, ?_⟩
  · intro h
    show String.mk (devStep (parseBase s)).1 = ""
    simp only [devStep, h]
  · intro h
    show String.mk ((stripFirstTok platformTok (devStep (parseBase s)).2).1.getD []) = ""
    rw [stripFirstTok_fst_none _ _ h]; rfl
  · intro h
    show String.mk
        ((stripFirstTok versionTok
          (stripFirstTok platformTok (devStep (parseBase s)).2).2).1.getD []) = ""
    rw [stripFirstTok_fst_none _ _ h]; rfl
  · intro h
    show String.mk
        ((stripFirstTok suffixTok
          (stripFirstTok versionTok
            (stripFirstTok platformTok (devStep (parseBase s)).2).2).2).1.getD []) = ""
    rw [stripFirstTok_fst_none _ _ h]; rfl

/-- Witness for C9 at the punctuation-only input `"!!!"` (no extension, no
delimiters) and at the empty string. -/
theorem parse_total_unmatched_witness :
    ((parseFileName ("!!!")).developer = "" ∧ (parseFileName ("!!!")).platform = "" ∧
      (parseFileName ("!!!")).version = "" ∧ (parseFileName ("!!!")).suffix = "") ∧
    ((parseFileName ("")).extension = lowerStr (extnameOf ("")) ∧
      (parseFileName ("")).developer = "") := by
  have h1 := parse_total_unmatched_fields_empty ("!!!")
  have h2 := parse_total_unmatched_fields_empty ("")
  exact ⟨⟨h1.2.1 (by decide), h1.2.2.1 (by decide), h1.2.2.2.1 (by decide),
    h1.2.2.2.2 (by decide)⟩, ⟨h2.1, h2.2.1 (by decide)⟩⟩

/-! ## Claim C10 (permission failures: distinct error, isolation) -/

/-- C10: a rename attempted in a non-writable directory (the current name
differs from the computed one, so a rename is issued) fails with the
distinct, explicitly signaled permission error and never with a success
result; in a batch, every sibling whose own operation succeeds appears in the
collected output regardless of other failures; and the folder loop processes
every developer folder, each one independently of the others'
writability. -/
theorem permission_failure_signaled_and_isolated :
    (∀ f d : String,
      basenameOf f ≠ normalizePluginFileName (parseFileName (basenameOf f)) d →
      processFileModel false f d = .error ("No write permission in directory: " ++ d)) ∧
    (∀ (w : Bool) (files : List String) (d f p : String),
      f ∈ files → processFileModel w f d = .ok p → p ∈ processAllFilesModel w files d) ∧
    (∀ folders : List (String × Bool × List String),
      (scanFoldersModel folders).length = folders.length ∧
      ∀ entry ∈ folders,
        (entry.1, processAllFilesModel entry.2.1 entry.2.2 entry.1) ∈ scanFoldersModel folders) := by
  refine ⟨?_, ?_, ?_⟩
  · intro f d h
    simp only [processFileModel, if_neg h]
    rfl
  · intro w files d f p hf hok
    induction files with
    | nil => cases hf
    | cons g rest ih =>
        rcases List.mem_cons.mp hf with hg | hrest
        · subst hg
          show p ∈ processAllFilesModel w (f :: rest) d
          simp only [processAllFilesModel, hok]
          exact List.mem_cons_self p _
        · show p ∈ processAllFilesModel w (g :: rest) d
          simp only [processAllFilesModel]
          cases hgm : processFileModel w g d with
          | ok q => exact List.mem_cons_of_mem q (ih hrest)
          | error e => exact ih hrest
  · intro folders
    constructor
    · simp [scanFoldersModel]
    · intro entry hentry
      exact List.mem_map_of_mem _ hentry

/-- Witness for C10: the rename of `"/Dev/P_v1.exe"` inside the non-writable
folder `"/Dev"` fails with the permission error, while the sibling
`"/Dev/Dev - Q.exe"` (already correctly named) still comes through the same
batch. -/
theorem permission_failure_witness :
    processFileModel false ("/Dev/P_v1.exe") ("/Dev")
        = .error ("No write permission in directory: /Dev") ∧
    ("/Dev/Dev - Q.exe" : String)
        ∈ processAllFilesModel false (["/Dev/P_v1.exe", "/Dev/Dev - Q.exe"]) ("/Dev") := by
  have h := permission_failure_signaled_and_isolated
  refine ⟨h.1 ("/Dev/P_v1.exe") ("/Dev") (by decide), ?_⟩
  exact h.2.1 false (["/Dev/P_v1.exe", "/Dev/Dev - Q.exe"]) ("/Dev")
    ("/Dev/Dev - Q.exe") ("/Dev/Dev - Q.exe") (by decide) (by rfl)

/-! ## Claims C8 / C2: categorizer lemmas -/

/-- Last-element override: the value the first pass of `categorizeFiles`
leaves in a slot initialized with `z` after seeing the files of `l`. -/
def lastWins (l : List String) (z : Option String) : Option String :=
  match l.getLast? with
  | some x => some x
  | none => z

/-- Prepending to the override list starts from the new head as default. -/
theorem lastWins_cons (f : String) (L : List String) (z : Option String) :
    lastWins (f :: L) z = lastWins L (some f) := by
  unfold lastWins
  rw [List.getLast?_cons]
  cases hL : L.getLast? <;> simp [hL]

/-- A `.zip` extension is an installer extension. -/
theorem zip_imp_installer (f : String) (h : isZipFile f = true) : isInstallerFile f = true := by
  unfold isZipFile at h
  unfold isInstallerFile
  rw [eq_of_beq h]
  decide

/-- A `.zip` extension is not an `.exe`/`.msi` extension. -/
theorem zip_not_exeMsi (f : String) (h : isZipFile f = true) : isExeMsiFile f = false := by
  unfold isZipFile at h
  unfold isExeMsiFile
  rw [eq_of_beq h]
  decide

/-- The installer-class test splits into the `.zip` test and the
`.exe`/`.msi` test. -/
theorem installer_or (f : String) : isInstallerFile f = (isZipFile f || isExeMsiFile f) := by
  unfold isInstallerFile isZipFile isExeMsiFile
  by_cases h1 : extLower f = ".zip"
  · rw [h1]; decide
  · by_cases h2 : extLower f = ".exe"
    · rw [h2]; decide
    · by_cases h3 : extLower f = ".msi"
      · rw [h3]; decide
      · simp [installerExtensions, h1, h2, h3]

/-- First pass, `zipFile` slot: the last `.zip` of the traversed list wins
over the initial value. -/
theorem setInstallers_fst : ∀ (l : List String) (z e : Option String),
    (setInstallers l z e).1 = lastWins (l.filter isZipFile) z := by
  intro l
  induction l with
  | nil => intro z e; rfl
  | cons f rest ih =>
      intro z e
      cases hz : isZipFile f
      · cases hm : isExeMsiFile f <;>
          simp [setInstallers, hz, hm, List.filter_cons, ih]
      · simp [setInstallers, hz, List.filter_cons, ih, lastWins_cons]

/-- First pass, `executableFile` slot: the last `.exe`/`.msi` of the
traversed list wins over the initial value. -/
theorem setInstallers_snd : ∀ (l : List String) (z e : Option String),
    (setInstallers l z e).2 = lastWins (l.filter isExeMsiFile) e := by
  intro l
  induction l with
  | nil => intro z e; rfl
  | cons f rest ih =>
      intro z e
      cases hz : isZipFile f
      · cases hm : isExeMsiFile f <;>
          simp [setInstallers, hz, hm, List.filter_cons, ih, lastWins_cons]
      · simp [setInstallers, hz, List.filter_cons, ih, zip_not_exeMsi f hz]

/-! ## Claim C8 (installer slots keep the last candidate) -/

/-- C8 amended: for every input list, the `zipFile` slot holds the **last**
`.zip` file in input order (or nothing), and the `executableFile` slot holds
the **last** `.exe`/`.msi` file in input order (or nothing): the first pass
overwrites the slot on every later candidate of the same class. -/
theorem installer_slots_last_wins (files : List String) :
    (categorizeFiles files).zipFile = (files.filter isZipFile).getLast? ∧
    (categorizeFiles files).executableFile = (files.filter isExeMsiFile).getLast? := by
  constructor
  · show (setInstallers (files.filter isInstallerFile) none none).1 = _
    rw [setInstallers_fst]
    simp only [List.filter_filter]
    have hmerge : files.filter (fun a => isZipFile a && isInstallerFile a)
        = files.filter isZipFile := by
      apply List.filter_congr
      intro x _
      cases hx : isZipFile x
      · simp
      · simp [zip_imp_installer x hx]
    rw [hmerge]
    unfold lastWins
    cases (files.filter isZipFile).getLast? <;> rfl
  · show (setInstallers (files.filter isInstallerFile) none none).2 = _
    rw [setInstallers_snd]
    simp only [List.filter_filter]
    have hmerge : files.filter (fun a => isExeMsiFile a && isInstallerFile a)
        = files.filter isExeMsiFile := by
      apply List.filter_congr
      intro x _
      cases hx : isExeMsiFile x
      · simp
      · have : isInstallerFile x = true := by
          rw [installer_or x, hx]
          simp
        simp [hx, this]
    rw [hmerge]
    unfold lastWins
    cases (files.filter isExeMsiFile).getLast? <;> rfl

/-! ## Claim C2 (partition under unique installer candidates) -/

/-- Second pass as three filters over the input (skipped files excluded by
the `contains` test, then documentation, then images, then the rest). -/
theorem classifyRest_eq (pf : List String) : ∀ l : List String,
    classifyRest pf l =
      (l.filter (fun f => !pf.contains f && documentationExtensions.contains (extLower f)),
       l.filter (fun f => !pf.contains f && !documentationExtensions.contains (extLower f) &&
         imageExtensions.contains (extLower f)),
       l.filter (fun f => !pf.contains f && !documentationExtensions.contains (extLower f) &&
         !imageExtensions.contains (extLower f))) := by
  intro l
  induction l with
  | nil => rfl
  | cons f rest ih =>
      simp only [classifyRest, ih, List.filter_cons]
      by_cases h1 : f ∈ pf <;>
        by_cases h2 : extLower f ∈ documentationExtensions <;>
          by_cases h3 : extLower f ∈ imageExtensions <;>
            simp [h1, h2, h3]

/-- Membership in a filtered list, as the `includes` test of the source
sees it: for an element of the base list it is just the filter predicate. -/
theorem filter_contains_of_mem (l : List String) (p : String → Bool) (f : String)
    (hf : f ∈ l) : (l.filter p).contains f = p f := by
  cases hp : p f
  · simp [List.mem_filter, hp]
  · simp [List.mem_filter, hp, hf]

/-- A list of length at most one is recovered from its optional last
element. -/
theorem getLast?_toList_of_short (l : List String) (h : l.length ≤ 1) :
    l.getLast?.toList = l := by
  match l with
  | [] => rfl
  | [a] => rfl
  | a :: b :: t => simp at h

/-- C2 amended: the five slots of `categorizeFiles` are a partition of the
input (as a multiset: nothing dropped, nothing duplicated) **provided** the
input contains at most one `.zip` file and at most one `.exe`/`.msi` file;
with more candidates of a class, all but the last are dropped from every
slot, as the counterexample shows. -/
theorem categorize_partition_of_unique_installers (files : List String)
    (hz : files.countP isZipFile ≤ 1) (he : files.countP isExeMsiFile ≤ 1) :
    List.Perm (slotsList (categorizeFiles files)) files := by
  have hzlen : (files.filter isZipFile).length ≤ 1 := by
    rw [← List.countP_eq_length_filter]
    exact hz
  have helen : (files.filter isExeMsiFile).length ≤ 1 := by
    rw [← List.countP_eq_length_filter]
    exact he
  have hz1 : (categorizeFiles files).zipFile.toList = files.filter isZipFile := by
    show (setInstallers (files.filter isInstallerFile) none none).1.toList = _
    rw [setInstallers_fst]
    simp only [List.filter_filter]
    have hmerge : files.filter (fun a => isZipFile a && isInstallerFile a)
        = files.filter isZipFile := by
      apply List.filter_congr
      intro x _
      cases hx : isZipFile x
      · simp
      · simp [zip_imp_installer x hx]
    rw [hmerge]
    show (lastWins (files.filter isZipFile) none).toList = _
    unfold lastWins
    rw [show (files.filter isZipFile).getLast? = (files.filter isZipFile).getLast? from rfl]
    cases hlast : (files.filter isZipFile).getLast? with
    | none =>
        have := getLast?_toList_of_short (files.filter isZipFile) hzlen
        rw [hlast] at this
        exact this
    | some x =>
        have := getLast?_toList_of_short (files.filter isZipFile) hzlen
        rw [hlast] at this
        exact this
  have he1 : (categorizeFiles files).executableFile.toList = files.filter isExeMsiFile := by
    show (setInstallers (files.filter isInstallerFile) none none).2.toList = _
    rw [setInstallers_snd]
    simp only [List.filter_filter]
    have hmerge : files.filter (fun a => isExeMsiFile a && isInstallerFile a)
        = files.filter isExeMsiFile := by
      apply List.filter_congr
      intro x _
      cases hx : isExeMsiFile x
      · simp
      · have hinst : isInstallerFile x = true := by
          rw [installer_or x, hx]
          simp
        simp [hx, hinst]
    rw [hmerge]
    unfold lastWins
    cases hlast : (files.filter isExeMsiFile).getLast? with
    | none =>
        have := getLast?_toList_of_short (files.filter isExeMsiFile) helen
        rw [hlast] at this
        exact this
    | some x =>
        have := getLast?_toList_of_short (files.filter isExeMsiFile) helen
        rw [hlast] at this
        exact this
  have hd : (categorizeFiles files).documentationFiles
      = files.filter (fun f => !isInstallerFile f &&
          documentationExtensions.contains (extLower f)) := by
    show (classifyRest (files.filter isInstallerFile) files).1 = _
    rw [classifyRest_eq]
    apply List.filter_congr
    intro x hx
    rw [filter_contains_of_mem files isInstallerFile x hx]
  have hi : (categorizeFiles files).imageFiles
      = files.filter (fun f => !isInstallerFile f &&
          !documentationExtensions.contains (extLower f) &&
          imageExtensions.contains (extLower f)) := by
    show (classifyRest (files.filter isInstallerFile) files).2.1 = _
    rw [classifyRest_eq]
    apply List.filter_congr
    intro x hx
    rw [filter_contains_of_mem files isInstallerFile x hx]
  have ho : (categorizeFiles files).otherFiles
      = files.filter (fun f => !isInstallerFile f &&
          !documentationExtensions.contains (extLower f) &&
          !imageExtensions.contains (extLower f)) := by
    show (classifyRest (files.filter isInstallerFile) files).2.2 = _
    rw [classifyRest_eq]
    apply List.filter_congr
    intro x hx
    rw [filter_contains_of_mem files isInstallerFile x hx]
  have P1 : List.Perm (files.filter isZipFile ++ files.filter isExeMsiFile)
      (files.filter isInstallerFile) := by
    have hsplit := List.filter_append_perm isZipFile (files.filter isInstallerFile)
    have e1 : (files.filter isInstallerFile).filter isZipFile = files.filter isZipFile := by
      simp only [List.filter_filter]
      apply List.filter_congr
      intro x _
      cases hx : isZipFile x
      · simp
      · simp [zip_imp_installer x hx]
    have e2 : (files.filter isInstallerFile).filter (fun x => !isZipFile x)
        = files.filter isExeMsiFile := by
      simp only [List.filter_filter]
      apply List.filter_congr
      intro x _
      cases hx : isZipFile x
      · simp [hx, installer_or x]
      · simp [hx, zip_not_exeMsi x hx]
    rw [e1, e2] at hsplit
    exact hsplit
  have P2 : List.Perm
      (files.filter (fun f => !isInstallerFile f &&
          documentationExtensions.contains (extLower f)) ++
        (files.filter (fun f => !isInstallerFile f &&
          !documentationExtensions.contains (extLower f) &&
          imageExtensions.contains (extLower f)) ++
         files.filter (fun f => !isInstallerFile f &&
          !documentationExtensions.contains (extLower f) &&
          !imageExtensions.contains (extLower f))))
      (files.filter (fun x => !isInstallerFile x)) := by
    have split1 := List.filter_append_perm
      (fun f => documentationExtensions.contains (extLower f))
      (files.filter (fun x => !isInstallerFile x))
    have split2 := List.filter_append_perm
      (fun f => imageExtensions.contains (extLower f))
      ((files.filter (fun x => !isInstallerFile x)).filter
        (fun x => !documentationExtensions.contains (extLower x)))
    have ed : (files.filter (fun x => !isInstallerFile x)).filter
        (fun f => documentationExtensions.contains (extLower f))
        = files.filter (fun f => !isInstallerFile f &&
            documentationExtensions.contains (extLower f)) := by
      simp only [List.filter_filter]
      apply List.filter_congr
      intro x _
      exact Bool.and_comm _ _
    have ei : ((files.filter (fun x => !isInstallerFile x)).filter
          (fun x => !documentationExtensions.contains (extLower x))).filter
          (fun f => imageExtensions.contains (extLower f))
        = files.filter (fun f => !isInstallerFile f &&
            !documentationExtensions.contains (extLower f) &&
            imageExtensions.contains (extLower f)) := by
      simp only [List.filter_filter]
      apply List.filter_congr
      intro x _
      cases h1 : isInstallerFile x <;>
        cases h2 : documentationExtensions.contains (extLower x) <;>
          cases h3 : imageExtensions.contains (extLower x) <;> simp [h1, h2, h3]
    have eo : ((files.filter (fun x => !isInstallerFile x)).filter
          (fun x => !documentationExtensions.contains (extLower x))).filter
          (fun x => !imageExtensions.contains (extLower x))
        = files.filter (fun f => !isInstallerFile f &&
            !documentationExtensions.contains (extLower f) &&
            !imageExtensions.contains (extLower f)) := by
      simp only [List.filter_filter]
      apply List.filter_congr
      intro x _
      cases h1 : isInstallerFile x <;>
        cases h2 : documentationExtensions.contains (extLower x) <;>
          cases h3 : imageExtensions.contains (extLower x) <;> simp [h1, h2, h3]
    rw [ei, eo] at split2
    rw [ed] at split1
    exact (List.Perm.append_left _ split2).trans split1
  have hfinal := (P1.append P2).trans (List.filter_append_perm isInstallerFile files)
  unfold slotsList
  rw [hz1, he1, hd, hi, ho]
  simpa [List.append_assoc] using hfinal

/-- Witness for C2 at a concrete input with one installer of each class. -/
theorem categorize_partition_witness :
    (["x.zip", "y.exe", "doc.pdf", "pic.png", "weird.xyz"] : List String).countP isZipFile ≤ 1 ∧
    (["x.zip", "y.exe", "doc.pdf", "pic.png", "weird.xyz"] : List String).countP isExeMsiFile ≤ 1 ∧
    List.Perm (slotsList (categorizeFiles (["x.zip", "y.exe", "doc.pdf", "pic.png", "weird.xyz"])))
      (["x.zip", "y.exe", "doc.pdf", "pic.png", "weird.xyz"]) :=
  ⟨by decide, by decide,
    categorize_partition_of_unique_installers
      (["x.zip", "y.exe", "doc.pdf", "pic.png", "weird.xyz"]) (by decide) (by decide)⟩

/-! ## Claim C3 (collision safety of the image-rename loop) -/

/-- Value of a digit list, base ten. -/
def digitsVal (l : List Char) : Nat :=
  l.foldl (fun acc c => acc * 10 + (c.toNat - 48)) 0

/-- The code of a digit character below ten. -/
theorem dChar_toNat (d : Nat) (h : d < 10) : (dChar d).toNat = 48 + d := by
  interval_cases d <;> rfl

/-- The fuel-driven digit expansion evaluates back to its input when the
fuel exceeds the input. -/
theorem natDigsGo_val : ∀ (fuel n : Nat), n < fuel → digitsVal (natDigsGo fuel n) = n := by
  intro fuel
  induction fuel with
  | zero => intro n h; omega
  | succ f ih =>
      intro n h
      by_cases h10 : n < 10
      · simp only [natDigsGo, if_pos h10]
        show digitsVal [dChar n] = n
        simp [digitsVal, dChar_toNat n h10]
      · simp only [natDigsGo, if_neg h10]
        show digitsVal (natDigsGo f (n / 10) ++ [dChar (n % 10)]) = n
        unfold digitsVal
        rw [List.foldl_append]
        have hdiv : n / 10 < f := by
          have h1 : n / 10 < n := Nat.div_lt_self (by omega) (by omega)
          omega
        have ihv := ih (n / 10) hdiv
        unfold digitsVal at ihv
        rw [ihv]
        simp only [List.foldl_cons, List.foldl_nil]
        rw [dChar_toNat (n % 10) (Nat.mod_lt _ (by omega))]
        omega

/-- Decimal rendering is injective. -/
theorem natDec_inj {a b : Nat} (h : natDec a = natDec b) : a = b := by
  have h2 := congrArg (fun s => digitsVal s.data) h
  simp only [natDec, natDigs] at h2
  rw [natDigsGo_val (a + 1) a (by omega), natDigsGo_val (b + 1) b (by omega)] at h2
  exact h2

/-- Character-list form of a suffixed candidate. -/
theorem imageCand_succ_data (c e : String) (k : Nat) :
    (imageCand c e (k + 1)).data = c.data ++ '-' :: ((natDec (k + 1)).data ++ e.data) := by
  show ((c ++ "-" ++ natDec (k + 1) ++ e)).data = _
  simp [str_data_append, List.append_assoc]

/-- A suffixed candidate is never the empty name. -/
theorem imageCand_succ_ne_empty (c e : String) (k : Nat) : imageCand c e (k + 1) ≠ "" := by
  intro h
  have h2 := congrArg (fun s => s.data.length) h
  simp [imageCand_succ_data] at h2

/-- The unsuffixed candidate is empty only for empty name and extension. -/
theorem imageCand_zero_empty (c e : String) (h : imageCand c e 0 = "") :
    c = "" ∧ e = "" := by
  have h2 := congrArg String.data h
  rw [show (imageCand c e 0).data = c.data ++ e.data from rfl] at h2
  have h3 := List.append_eq_nil.mp h2
  exact ⟨str_eq_iff_data.mpr h3.1, str_eq_iff_data.mpr h3.2⟩

/-- Left cancellation for string append. -/
theorem str_append_cancel_left {a b c : String} (h : a ++ b = a ++ c) : b = c := by
  rw [str_eq_iff_data] at h ⊢
  rw [str_data_append, str_data_append] at h
  exact List.append_cancel_left h

/-- The candidate sequence of the collision loop is injective. -/
theorem imageCand_inj (c e : String) : ∀ j k : Nat, imageCand c e j = imageCand c e k → j = k := by
  intro j k h
  match j, k with
  | 0, 0 => rfl
  | 0, k + 1 =>
      exfalso
      have h2 := congrArg (fun s => s.data.length) h
      simp [imageCand_succ_data, show (imageCand c e 0).data = c.data ++ e.data from rfl] at h2
      omega
  | j + 1, 0 =>
      exfalso
      have h2 := congrArg (fun s => s.data.length) h
      simp [imageCand_succ_data, show (imageCand c e 0).data = c.data ++ e.data from rfl] at h2
      omega
  | j + 1, k + 1 =>
      have h2 := congrArg String.data h
      rw [imageCand_succ_data, imageCand_succ_data] at h2
      have h3 := List.append_cancel_left h2
      have h4 : (natDec (j + 1)).data ++ e.data = (natDec (k + 1)).data ++ e.data := by
        injection h3 with _ htail
      have h5 := List.append_cancel_right h4
      have h6 : natDec (j + 1) = natDec (k + 1) := str_eq_iff_data.mpr h5
      have h7 := natDec_inj h6
      omega

/-- Joining a fixed directory with two distinct nonempty names gives
distinct paths. -/
theorem joinPath_inj_nonempty (d x y : String) (hx : x ≠ "") (hy : y ≠ "")
    (h : joinPath d x = joinPath d y) : x = y := by
  unfold joinPath at h
  by_cases hd0 : d = ""
  · simpa [hd0, hx, hy] using h
  · by_cases hdot : d = "."
    · simpa [hd0, hdot, hx, hy] using h
    · rw [if_neg hd0, if_neg hd0, if_neg hx, if_neg hy, if_neg hdot, if_neg hdot] at h
      exact str_append_cancel_left h

/-- Joining a fixed directory with the empty name and with a nonempty name
gives the same path only when the nonempty name is `"."`. -/
theorem joinPath_empty_eq (d y : String) (hy : y ≠ "")
    (h : joinPath d ("") = joinPath d y) : y = "." := by
  unfold joinPath at h
  by_cases hd0 : d = ""
  · simp [hd0, hy] at h
    exact h.symm
  · by_cases hdot : d = "."
    · simp [hd0, hdot, hy] at h
      exact h.symm
    · rw [if_neg hd0, if_neg hd0, if_pos rfl, if_neg hy, if_neg hdot] at h
      exfalso
      have h2 := congrArg (fun s => s.data.length) h
      simp [str_data_append] at h2

/-- Probed paths of distinct loop candidates are distinct. -/
theorem imageCand_path_inj (d c e : String) (j k : Nat)
    (h : joinPath d (imageCand c e j) = joinPath d (imageCand c e k)) : j = k := by
  by_cases hx : imageCand c e j = "" <;> by_cases hy : imageCand c e k = ""
  · match j, k with
    | 0, 0 => rfl
    | 0, k + 1 => exact absurd hy (imageCand_succ_ne_empty c e k)
    | j + 1, _ => exact absurd hx (imageCand_succ_ne_empty c e j)
  · exfalso
    match j, k with
    | j + 1, _ => exact (imageCand_succ_ne_empty c e j) hx
    | 0, 0 => exact hy hx
    | 0, k + 1 =>
        obtain ⟨hc, he2⟩ := imageCand_zero_empty c e hx
        rw [hx] at h
        have hdot := joinPath_empty_eq d (imageCand c e (k + 1)) hy h
        have h2 := congrArg String.data hdot
        rw [imageCand_succ_data, hc, he2] at h2
        simp at h2
  · exfalso
    match j, k with
    | _, k + 1 => exact (imageCand_succ_ne_empty c e k) hy
    | 0, 0 => exact hx hy
    | j + 1, 0 =>
        obtain ⟨hc, he2⟩ := imageCand_zero_empty c e hy
        rw [hy] at h
        have hdot := joinPath_empty_eq d (imageCand c e (j + 1)) hx h.symm
        have h2 := congrArg String.data hdot
        rw [imageCand_succ_data, hc, he2] at h2
        simp at h2
  · exact imageCand_inj c e j k (joinPath_inj_nonempty d _ _ hx hy h)

/-- The collision loop always returns some candidate at or after its current
index. -/
theorem imageLoop_shape (existing : List String) (d c e : String) :
    ∀ (fuel j : Nat), ∃ k, j ≤ k ∧ imageLoop existing d c e fuel j = imageCand c e k := by
  intro fuel
  induction fuel with
  | zero => intro j; exact ⟨j, Nat.le_refl j, rfl⟩
  | succ f ih =>
      intro j
      by_cases hmem : joinPath d (imageCand c e j) ∈ existing
      · obtain ⟨k, hk, he2⟩ := ih (j + 1)
        refine ⟨k, by omega, ?_⟩
        simp only [imageLoop, if_pos hmem]
        exact he2
      · exact ⟨j, Nat.le_refl j, by simp only [imageLoop, if_neg hmem]⟩

/-- The collision loop only looks at membership of the candidate paths it
still may probe. -/
theorem imageLoop_congr (d c e : String) :
    ∀ (fuel j : Nat) (ex1 ex2 : List String),
    (∀ k, j ≤ k → (joinPath d (imageCand c e k) ∈ ex1 ↔ joinPath d (imageCand c e k) ∈ ex2)) →
    imageLoop ex1 d c e fuel j = imageLoop ex2 d c e fuel j := by
  intro fuel
  induction fuel with
  | zero => intro j ex1 ex2 _; rfl
  | succ f ih =>
      intro j ex1 ex2 h
      by_cases hmem : joinPath d (imageCand c e j) ∈ ex1
      · have hmem2 : joinPath d (imageCand c e j) ∈ ex2 := (h j (Nat.le_refl j)).mp hmem
        simp only [imageLoop, if_pos hmem, if_pos hmem2]
        exact ih (j + 1) ex1 ex2 (fun k hk => h k (by omega))
      · have hmem2 : joinPath d (imageCand c e j) ∉ ex2 := fun hx => hmem ((h j (Nat.le_refl j)).mpr hx)
        simp only [imageLoop, if_neg hmem, if_neg hmem2]

/-- Pigeonhole freshness: with more fuel than existing paths, the collision
loop returns a candidate whose path does not exist.  The probed paths are
pairwise distinct, so each failed probe consumes one element of the existing
set. -/
theorem imageLoop_fresh (d c e : String) :
    ∀ (fuel : Nat) (existing : List String) (j : Nat), existing.length < fuel →
    joinPath d (imageLoop existing d c e fuel j) ∉ existing := by
  intro fuel
  induction fuel with
  | zero => intro existing j h; omega
  | succ f ih =>
      intro existing j h
      by_cases hmem : joinPath d (imageCand c e j) ∈ existing
      · simp only [imageLoop, if_pos hmem]
        have hlen : (existing.erase (joinPath d (imageCand c e j))).length
            = existing.length - 1 := List.length_erase_of_mem hmem
        have htrans : imageLoop existing d c e f (j + 1)
            = imageLoop (existing.erase (joinPath d (imageCand c e j))) d c e f (j + 1) := by
          apply imageLoop_congr
          intro k hk
          have hne : joinPath d (imageCand c e k) ≠ joinPath d (imageCand c e j) := by
            intro heq
            have := imageCand_path_inj d c e k j heq
            omega
          exact (List.mem_erase_of_ne hne).symm
        rw [htrans]
        have hpos : 0 < existing.length := List.length_pos.mpr (List.ne_nil_of_mem hmem)
        have hfree := ih (existing.erase (joinPath d (imageCand c e j))) (j + 1) (by omega)
        obtain ⟨k, hk, hkeq⟩ := imageLoop_shape
          (existing.erase (joinPath d (imageCand c e j))) d c e f (j + 1)
        rw [hkeq] at hfree ⊢
        intro hmem2
        apply hfree
        have hne : joinPath d (imageCand c e k) ≠ joinPath d (imageCand c e j) := by
          intro heq
          have := imageCand_path_inj d c e k j heq
          omega
        exact (List.mem_erase_of_ne hne).mpr hmem2
      · simp only [imageLoop, if_neg hmem]
        exact hmem

/-- C3 amended: collision-safe target selection is implemented only in the
image renaming: whenever `normalizeImageName` decides to rename
(the cleaned current base name differs from the cleaned plugin name),
the name it returns resolves to a path that did not exist before the call —
for every existing file set; the plugin-file rename of `processFile`, by
contrast, overwrites an existing target (see the counterexample). -/
theorem image_rename_target_fresh (existing : List String) (fileName pluginName : String)
    (h : cleanCurrentBase fileName (imageExt fileName) ≠ lowerStr (cleanForImage pluginName)) :
    joinPath (dirnameOf fileName) (normalizeImageName existing fileName pluginName)
      ∉ existing := by
  unfold normalizeImageName
  simp only [if_neg h]
  exact imageLoop_fresh (dirnameOf fileName) (cleanForImage pluginName) (imageExt fileName)
    (existing.length + 1) existing 0 (by omega)

/-- Witness for C3 amended: renaming the screenshot to the plugin's image
name skips the two taken candidates and lands on a fresh path. -/
theorem image_rename_target_fresh_witness :
    cleanCurrentBase ("screenshot 2.png") (imageExt ("screenshot 2.png"))
        ≠ lowerStr (cleanForImage ("Pro-Q 3!")) ∧
    joinPath (dirnameOf ("screenshot 2.png"))
        (normalizeImageName (["ProQ_3.png", "ProQ_3-1.png"]) ("screenshot 2.png") ("Pro-Q 3!"))
      ∉ (["ProQ_3.png", "ProQ_3-1.png"] : List String) :=
  ⟨by decide,
    image_rename_target_fresh (["ProQ_3.png", "ProQ_3-1.png"]) ("screenshot 2.png") ("Pro-Q 3!")
      (by decide)⟩

/-! ## Claims C5 / C6: conditional idempotence -/

/-- Dropping-while over a list where the predicate never holds. -/
theorem dropWhile_all_false {p : Char → Bool} : ∀ {l : List Char},
    (∀ c ∈ l, p c = false) → l.dropWhile p = l := by
  intro l h
  cases l with
  | nil => rfl
  | cons a t => simp [List.dropWhile_cons, h a (by simp)]

/-- Taking-while stops exactly at the first failing character. -/
theorem takeWhile_append_stop (p : Char → Bool) (a b : List Char) (x : Char)
    (ha : ∀ c ∈ a, p c = true) (hx : p x = false) :
    (a ++ x :: b).takeWhile p = a := by
  induction a with
  | nil => simp [List.takeWhile_cons, hx]
  | cons y a' ih =>
      simp only [List.cons_append, List.takeWhile_cons, ha y (by simp)]
      simp [ih (fun c hc => ha c (by simp [hc]))]

/-- A slash-free name is its own basename. -/
theorem basenameList_id (l : List Char) (h : ∀ c ∈ l, c ≠ '/') : basenameList l = l := by
  unfold basenameList
  have h1 : l.reverse.dropWhile (fun c => c == '/') = l.reverse := by
    apply dropWhile_all_false
    intro c hc
    simp [h c (List.mem_reverse.mp hc)]
  have h2 : l.reverse.takeWhile (fun c => c != '/') = l.reverse := by
    apply List.takeWhile_eq_self_iff.mpr
    intro c hc
    simp [h c (List.mem_reverse.mp hc)]
  rw [h1, h2, List.reverse_reverse]

/-- Extension extraction on a name ending in a dot-free nonempty
extension tail. -/
theorem extOfBase_append (a t : List Char) (ha : a ≠ []) (ht : t ≠ [])
    (htd : ∀ c ∈ t, c ≠ '.') : extOfBase (a ++ '.' :: t) = '.' :: t := by
  unfold extOfBase
  have hpre : (a ++ '.' :: t).reverse.takeWhile (fun c => c != '.') = t.reverse := by
    rw [List.reverse_append, List.reverse_cons, List.append_assoc]
    apply takeWhile_append_stop
    · intro c hc
      simp [htd c (List.mem_reverse.mp hc)]
    · simp
  rw [hpre]
  have hlen : (a ++ '.' :: t).length = a.length + t.length + 1 := by
    simp [List.length_append]
    omega
  have hapos := List.length_pos.mpr ha
  have htpos := List.length_pos.mpr ht
  have hlt : t.reverse.length ≠ (a ++ '.' :: t).length := by
    rw [List.length_reverse, hlen]
    omega
  rw [if_neg (by simpa using hlt)]
  have hi0 : (a ++ '.' :: t).length - t.reverse.length - 1 ≠ 0 := by
    rw [List.length_reverse, hlen]
    omega
  have hne2 : (a ++ '.' :: t) ≠ ['.', '.'] := by
    intro hcontra
    have hlen2 := congrArg List.length hcontra
    rw [hlen] at hlen2
    simp at hlen2
    omega
  rw [if_neg (by simp [hne2]; omega)]
  have hi : (a ++ '.' :: t).length - t.reverse.length - 1 = a.length := by
    rw [List.length_reverse, hlen]
    omega
  rw [hi]
  exact List.drop_left a ('.' :: t)

/-- A list of non-whitespace characters has no leading whitespace run. -/
theorem wsCount_zero (l : List Char) (h : ∀ c ∈ l, isWsChar c = false) : wsCount l = 0 := by
  unfold wsCount
  cases l with
  | nil => rfl
  | cons a t => simp [List.takeWhile_cons, h a (by simp)]

/-- The separator matcher on a string starting with `" - "` followed by
non-whitespace text consumes exactly three characters. -/
theorem sepLen_dash (P : List Char) (hP : wsCount P = 0) :
    sepLen (' ' :: '-' :: ' ' :: P) = some 3 := by
  unfold sepLen
  have h1 : wsCount (' ' :: '-' :: ' ' :: P) = 1 := by
    unfold wsCount
    rw [List.takeWhile_cons, if_pos (show isWsChar ' ' = true by decide),
      List.takeWhile_cons, if_neg (show ¬(isWsChar '-' = true) by decide)]
    rfl
  rw [h1]
  show (if ('-' == '-' || '-' == '_') = true then
      some (1 + 1 + wsCount (' ' :: P)) else _) = some 3
  rw [if_pos (by decide)]
  have h2 : wsCount (' ' :: P) = 1 := by
    unfold wsCount at hP ⊢
    rw [List.takeWhile_cons, if_pos (show isWsChar ' ' = true by decide)]
    simp [hP]
  rw [h2]

/-- The separator matcher fails on a string starting with a character that is
neither whitespace nor `-` nor `_`. -/
theorem sepLen_none (c : Char) (r : List Char) (hws : isWsChar c = false)
    (hd : c ≠ '-') (hu : c ≠ '_') : sepLen (c :: r) = none := by
  unfold sepLen
  have h1 : wsCount (c :: r) = 0 := by
    unfold wsCount
    simp [List.takeWhile_cons, hws]
  rw [h1]
  show (if (c == '-' || c == '_') = true then _ else _) = none
  rw [if_neg (by simp [hd, hu])]
  simp

/-- The developer matcher consumes a clean run up to `" - "` and returns the
run as capture with the text after the separator as remainder. -/
theorem devMatchAux_run : ∀ (mid acc P : List Char), mid ≠ [] →
    (∀ c ∈ mid, isWsChar c = false ∧ c ≠ '-' ∧ c ≠ '_') → wsCount P = 0 →
    devMatchAux acc (mid ++ ' ' :: '-' :: ' ' :: P) = some (acc ++ mid, P) := by
  intro mid
  induction mid with
  | nil => intro acc P hne _ _; exact absurd rfl hne
  | cons x mid' ih =>
      intro acc P _ hc hP
      obtain ⟨hxws, hxd, hxu⟩ := hc x (by simp)
      cases mid' with
      | nil =>
          show devMatchAux acc (x :: ' ' :: '-' :: ' ' :: P) = some (acc ++ [x], P)
          unfold devMatchAux
          rw [if_neg (show ¬((x == '-') = true) by simp [hxd]), sepLen_dash P hP]
          simp
      | cons y mid'' =>
          obtain ⟨hyws, hyd, hyu⟩ := hc y (by simp)
          show devMatchAux acc (x :: (y :: mid'' ++ ' ' :: '-' :: ' ' :: P))
              = some (acc ++ x :: y :: mid'', P)
          unfold devMatchAux
          rw [if_neg (show ¬((x == '-') = true) by simp [hxd])]
          rw [show (y :: mid'' ++ ' ' :: '-' :: ' ' :: P)
              = y :: (mid'' ++ ' ' :: '-' :: ' ' :: P) from rfl]
          rw [sepLen_none y _ hyws hyd hyu]
          show devMatchAux (acc ++ [x]) (y :: mid'' ++ ' ' :: '-' :: ' ' :: P)
              = some (acc ++ x :: y :: mid'', P)
          have h2 := ih (acc ++ [x]) P (by simp) (fun c hcm => hc c (by simp [hcm])) hP
          simp only [List.cons_append] at h2 ⊢
          rw [h2]
          simp

/-- The token search finds nothing in whitespace-free text. -/
theorem findTokSplit_none_of_nows (tok : List Char → Option Nat) :
    ∀ l : List Char, (∀ c ∈ l, isWsChar c = false) → findTokSplit tok l = none := by
  intro l
  induction l with
  | nil => intro _; rfl
  | cons c rest ih =>
      intro h
      unfold findTokSplit
      rw [if_neg (show ¬(isWsChar c = true) by simp [h c (by simp)])]
      rw [ih (fun x hx => h x (by simp [hx]))]

/-- The whitespace/hyphen collapse leaves clean text unchanged. -/
theorem collapseGo_id : ∀ (b : Bool) (l : List Char),
    (∀ c ∈ l, isWsChar c = false ∧ c ≠ '-') → collapseGo b l = l := by
  intro b l
  induction l generalizing b with
  | nil => intro _; rfl
  | cons c rest ih =>
      intro h
      obtain ⟨h1, h2⟩ := h c (by simp)
      unfold collapseGo
      rw [if_neg (show ¬((isWsChar c || c == '-') = true) by simp [h1, h2])]
      rw [ih false (fun x hx => h x (by simp [hx]))]

/-- Trimming leaves whitespace-free text unchanged. -/
theorem trimWsList_id (l : List Char) (h : ∀ c ∈ l, isWsChar c = false) :
    trimWsList l = l := by
  unfold trimWsList
  rw [dropWhile_all_false h]
  rw [dropWhile_all_false (fun c hc => h c (List.mem_reverse.mp hc))]
  exact List.reverse_reverse l

/-- Lowercasing leaves already-lowercase text unchanged. -/
theorem lowerList_id (l : List Char) (h : ∀ c ∈ l, c.toLower = c) : lowerList l = l := by
  unfold lowerList
  induction l with
  | nil => rfl
  | cons c rest ih =>
      simp only [List.map_cons, h c (by simp)]
      rw [ih (fun x hx => h x (by simp [hx]))]

/-- Core round-trip lemma: a canonical name `"<D> - <P><.t>"` with a clean
single-token developer `D`, a clean single-token plugin name `P` and a
dot-free lowercase extension tail `t` parses back into exactly those
components. -/
theorem roundtrip_parse (D P t : List Char)
    (hD : D ≠ []) (hDc : ∀ c ∈ D, isWsChar c = false ∧ c ≠ '-' ∧ c ≠ '_' ∧ c ≠ '/')
    (hP : P ≠ []) (hPc : ∀ c ∈ P, isWsChar c = false ∧ c ≠ '-' ∧ c ≠ '/')
    (ht : t ≠ []) (htc : ∀ c ∈ t, c ≠ '.' ∧ c ≠ '/' ∧ isWsChar c = false ∧ c.toLower = c) :
    parseFileName (String.mk (D ++ ' ' :: '-' :: ' ' :: (P ++ '.' :: t))) =
      { developer := String.mk D, pluginName := String.mk P, platform := "",
        version := "", suffix := "", extension := String.mk ('.' :: t) } := by
  have hslash : ∀ c ∈ D ++ ' ' :: '-' :: ' ' :: (P ++ '.' :: t), c ≠ '/' := by
    intro c hc
    rcases List.mem_append.mp hc with h | h
    · exact (hDc c h).2.2.2
    · simp only [List.mem_cons, List.mem_append] at h
      rcases h with rfl | rfl | rfl | h | rfl | h
      · decide
      · decide
      · decide
      · exact (hPc c h).2.2
      · decide
      · exact (htc c h).2.1
  have hassoc : D ++ ' ' :: '-' :: ' ' :: (P ++ '.' :: t)
      = (D ++ ' ' :: '-' :: ' ' :: P) ++ '.' :: t := by
    simp [List.append_assoc]
  have hane : D ++ ' ' :: '-' :: ' ' :: P ≠ [] := by
    simp
  have hext : extOfBase ((D ++ ' ' :: '-' :: ' ' :: P) ++ '.' :: t) = '.' :: t :=
    extOfBase_append _ t hane ht (fun c hc => (htc c hc).1)
  have hpb : parseBase (String.mk (D ++ ' ' :: '-' :: ' ' :: (P ++ '.' :: t)))
      = D ++ ' ' :: '-' :: ' ' :: P := by
    unfold parseBase
    show (basenameList (D ++ ' ' :: '-' :: ' ' :: (P ++ '.' :: t))).take
        ((basenameList (D ++ ' ' :: '-' :: ' ' :: (P ++ '.' :: t))).length -
          (extOfBase (basenameList (D ++ ' ' :: '-' :: ' ' :: (P ++ '.' :: t)))).length)
      = D ++ ' ' :: '-' :: ' ' :: P
    rw [basenameList_id _ hslash, hassoc, hext]
    have hlen : ((D ++ ' ' :: '-' :: ' ' :: P) ++ '.' :: t).length - ('.' :: t).length
        = (D ++ ' ' :: '-' :: ' ' :: P).length := by
      simp [List.length_append]
      omega
    rw [hlen]
    exact List.take_left _ ('.' :: t)
  have hdev : devStep (D ++ ' ' :: '-' :: ' ' :: P) = (D, P) := by
    unfold devStep devMatch
    rw [devMatchAux_run D [] P hD
      (fun c hc => ⟨(hDc c hc).1, (hDc c hc).2.1, (hDc c hc).2.2.1⟩)
      (wsCount_zero P (fun c hc => (hPc c hc).1))]
    simp [trimWsList_id D (fun c hc => (hDc c hc).1)]
  have hf : ∀ tok : List Char → Option Nat, stripFirstTok tok P = (none, P) := by
    intro tok
    unfold stripFirstTok
    rw [findTokSplit_none_of_nows tok P (fun c hc => (hPc c hc).1)]
  have hplug : trimWsList (collapseWsHyphen P) = P := by
    unfold collapseWsHyphen
    rw [collapseGo_id false P (fun c hc => ⟨(hPc c hc).1, (hPc c hc).2.1⟩)]
    exact trimWsList_id P (fun c hc => (hPc c hc).1)
  have hextfield : lowerStr (extnameOf (String.mk (D ++ ' ' :: '-' :: ' ' :: (P ++ '.' :: t))))
      = String.mk ('.' :: t) := by
    unfold extnameOf
    rw [show (String.mk (D ++ ' ' :: '-' :: ' ' :: (P ++ '.' :: t))).data
      = D ++ ' ' :: '-' :: ' ' :: (P ++ '.' :: t) from rfl]
    rw [basenameList_id _ hslash, hassoc, hext]
    unfold lowerStr
    rw [show (String.mk ('.' :: t)).data = '.' :: t from rfl]
    have hlow : lowerList ('.' :: t) = '.' :: t := by
      unfold lowerList
      simp only [List.map_cons]
      rw [show Char.toLower '.' = '.' by decide]
      have h2 := lowerList_id t (fun c hc => (htc c hc).2.2.2)
      unfold lowerList at h2
      rw [h2]
    rw [hlow]
  unfold parseFileName
  rw [hpb, hdev]
  simp only [hf platformTok, hf versionTok, hf suffixTok, hextfield, hplug]
  rfl

/-- Rebuilding a string from its character list is the identity. -/
theorem strMk_data (s : String) : String.mk s.data = s := rfl

/-- Normalization with empty platform and version fields is the plain
concatenation of developer, separator, plugin name and lowercased
extension. -/
theorem normalize_simple (q : ParsedFileName) (d : String)
    (hplat : q.platform = "") (hver : q.version = "") :
    normalizePluginFileName q d
      = basenameOf d ++ " - " ++ q.pluginName ++ lowerStr q.extension := by
  unfold normalizePluginFileName
  rw [hplat, hver]
  simp

/-- Shared fixed-point core for claims C5 and C6: when the developer folder
is a single clean token, the parsed value has a nonempty clean single-token
plugin name, empty platform and version, and a dot-led, dot-free, lowercase
extension, then re-parsing and re-normalizing the canonical name reproduces
it. -/
theorem normalize_reparse_fixed (p : ParsedFileName) (d : String) (t : List Char)
    (hd1 : d ≠ "") (hd2 : ∀ c ∈ d.data, isWsChar c = false ∧ c ≠ '-' ∧ c ≠ '_' ∧ c ≠ '/')
    (hp1 : p.pluginName ≠ "")
    (hp2 : ∀ c ∈ p.pluginName.data, isWsChar c = false ∧ c ≠ '-' ∧ c ≠ '/')
    (hplat : p.platform = "") (hver : p.version = "")
    (hext : p.extension = String.mk ('.' :: t)) (ht1 : t ≠ [])
    (ht2 : ∀ c ∈ t, c ≠ '.' ∧ c ≠ '/' ∧ isWsChar c = false ∧ c.toLower = c) :
    normalizePluginFileName (parseFileName (normalizePluginFileName p d)) d
      = normalizePluginFileName p d := by
  have hd1d : d.data ≠ [] := fun h => hd1 (str_eq_iff_data.mpr h)
  have hp1d : p.pluginName.data ≠ [] := fun h => hp1 (str_eq_iff_data.mpr h)
  have hbase : basenameOf d = d := by
    unfold basenameOf
    rw [basenameList_id d.data (fun c hc => (hd2 c hc).2.2.2)]
  have hlowdot : lowerList ('.' :: t) = '.' :: t := by
    unfold lowerList
    simp only [List.map_cons]
    rw [show Char.toLower '.' = '.' by decide]
    have h2 := lowerList_id t (fun c hc => (ht2 c hc).2.2.2)
    unfold lowerList at h2
    rw [h2]
  have hlowext : lowerStr p.extension = p.extension := by
    rw [hext]
    show String.mk (lowerList ('.' :: t)) = String.mk ('.' :: t)
    rw [hlowdot]
  have hNdata : (normalizePluginFileName p d).data
      = d.data ++ ' ' :: '-' :: ' ' :: (p.pluginName.data ++ '.' :: t) := by
    rw [normalize_simple p d hplat hver, hlowext, hext, hbase]
    simp [str_data_append, List.append_assoc]
  have hNmk : normalizePluginFileName p d
      = String.mk (d.data ++ ' ' :: '-' :: ' ' :: (p.pluginName.data ++ '.' :: t)) :=
    str_eq_iff_data.mpr (by rw [hNdata])
  have hparse := roundtrip_parse d.data p.pluginName.data t hd1d hd2 hp1d hp2 ht1 ht2
  rw [hNmk, hparse]
  simp only [strMk_data]
  rw [← hext]
  rw [normalize_simple _ d rfl rfl, hbase, show
    ({ developer := d, pluginName := p.pluginName, platform := "", version := "",
       suffix := "", extension := p.extension } : ParsedFileName).pluginName
      = p.pluginName from rfl, show
    ({ developer := d, pluginName := p.pluginName, platform := "", version := "",
       suffix := "", extension := p.extension } : ParsedFileName).extension
      = p.extension from rfl, hlowext, hext]
  rw [str_eq_iff_data]
  simp [str_data_append, List.append_assoc]

/-- C5 amended: idempotence holds on the canonical names of the simple
shape: if `N` is produced by the normalizer from a parsed value with a
nonempty single-token plugin name (no whitespace, no hyphen, no slash),
empty platform and version, and a dot-led, dot-free, lowercase extension,
and the developer folder is a nonempty single token (no whitespace, hyphen,
underscore or slash), then `normalize(parse(N), folder) = N`.  For folders or
plugin names containing separator characters it fails, as the counterexample
shows. -/
theorem normalize_parse_idempotent_on_simple_canonical
    (N : String) (p : ParsedFileName) (d : String) (t : List Char)
    (hN : N = normalizePluginFileName p d)
    (hd1 : d ≠ "") (hd2 : ∀ c ∈ d.data, isWsChar c = false ∧ c ≠ '-' ∧ c ≠ '_' ∧ c ≠ '/')
    (hp1 : p.pluginName ≠ "")
    (hp2 : ∀ c ∈ p.pluginName.data, isWsChar c = false ∧ c ≠ '-' ∧ c ≠ '/')
    (hplat : p.platform = "") (hver : p.version = "")
    (hext : p.extension = String.mk ('.' :: t)) (ht1 : t ≠ [])
    (ht2 : ∀ c ∈ t, c ≠ '.' ∧ c ≠ '/' ∧ isWsChar c = false ∧ c.toLower = c) :
    normalizePluginFileName (parseFileName N) d = N := by
  subst hN
  exact normalize_reparse_fixed p d t hd1 hd2 hp1 hp2 hplat hver hext ht1 ht2

/-- Witness for C5 amended at the canonical name
`"FabFilter - ProQ3.exe"`. -/
theorem normalize_parse_idempotent_witness :
    normalizePluginFileName
        (parseFileName (normalizePluginFileName
          { developer := "", pluginName := "ProQ3", platform := "", version := "",
            suffix := "", extension := ".exe" } ("FabFilter"))) ("FabFilter")
      = normalizePluginFileName
          { developer := "", pluginName := "ProQ3", platform := "", version := "",
            suffix := "", extension := ".exe" } ("FabFilter") :=
  normalize_parse_idempotent_on_simple_canonical _
    { developer := "", pluginName := "ProQ3", platform := "", version := "",
      suffix := "", extension := ".exe" } ("FabFilter") (['e', 'x', 'e'])
    rfl (by decide) (by decide) (by decide) (by decide) rfl rfl rfl (by decide) (by decide)

/-- C6 amended: one application of normalize-of-parse is a fixed point for
the inputs whose parse has a nonempty single-token plugin name (no
whitespace, hyphen or slash), empty platform and version fields, and a
dot-led, dot-free, lowercase extension, provided the developer folder is a
nonempty single token (no whitespace, hyphen, underscore or slash); in
general it is not, as the counterexample shows. -/
theorem normalize_parse_round_trip_of_simple_parse
    (x d : String) (t : List Char)
    (hd1 : d ≠ "") (hd2 : ∀ c ∈ d.data, isWsChar c = false ∧ c ≠ '-' ∧ c ≠ '_' ∧ c ≠ '/')
    (hp1 : (parseFileName x).pluginName ≠ "")
    (hp2 : ∀ c ∈ (parseFileName x).pluginName.data, isWsChar c = false ∧ c ≠ '-' ∧ c ≠ '/')
    (hplat : (parseFileName x).platform = "") (hver : (parseFileName x).version = "")
    (hext : (parseFileName x).extension = String.mk ('.' :: t)) (ht1 : t ≠ [])
    (ht2 : ∀ c ∈ t, c ≠ '.' ∧ c ≠ '/' ∧ isWsChar c = false ∧ c.toLower = c) :
    normalizePluginFileName
        (parseFileName (normalizePluginFileName (parseFileName x) d)) d
      = normalizePluginFileName (parseFileName x) d :=
  normalize_reparse_fixed (parseFileName x) d t hd1 hd2 hp1 hp2 hplat hver hext ht1 ht2

/-- Witness for C6 amended at the input `"ProQ3.exe"` in folder
`"FabFilter"`. -/
theorem normalize_parse_round_trip_witness :
    normalizePluginFileName
        (parseFileName (normalizePluginFileName (parseFileName ("ProQ3.exe")) ("FabFilter")))
        ("FabFilter")
      = normalizePluginFileName (parseFileName ("ProQ3.exe")) ("FabFilter") :=
  normalize_parse_round_trip_of_simple_parse ("ProQ3.exe") ("FabFilter") (['e', 'x', 'e'])
    (by decide) (by decide) (by decide) (by decide) (by decide) (by decide)
    (by decide) (by decide) (by decide)
